import Mathlib

/-!
Verification of the YouTube downloader bot (`src/main.py`).

The program is a single linear message handler.  We shallowly embed:

* `is_youtube_url` — the regular expression
  `(https?://)?(www\.)?(youtube|youtu|youtube-nocookie)\.(com|be)/`
  `(watch\?v=|embed/|v/|.+\?v=)?([^&=%\n]{11})`
  matched with `re.match` (anchored at the start only).  A backtracking
  regular-expression match succeeds exactly when some nondeterministic
  choice of alternatives and splits succeeds, so the embedding is a
  decision procedure structured literally like the pattern: alternations
  become disjunctions, sequencing becomes literal-prefix stripping, and
  `.+\?v=` becomes a structural recursion over the remaining characters.

* the stream selector (`main.py` lines 99–115) over the spec's data model
  of stream variants (progressive flag, container, resolution rank,
  optional byte size);

* the handler `download_video` itself as a pure function from the inputs
  (message text, injected results of the two fallible collaborator calls)
  to the list of observable effects (replies, edits, buffer operations,
  upload, delete) and a final outcome.
-/

namespace YT

/-- Characters allowed in the 11-character video-id token: the regex
character class `[^&=%\n]`. -/
def idChar (c : Char) : Bool :=
  !(c == '&' || c == '=' || c == '%' || c == '\n')

/-- The final regex group `([^&=%\n]{11})`: the remaining input must start
with 11 characters of the class; anything may follow (the pattern has no
end anchor). -/
def idOk (s : List Char) : Bool :=
  decide (11 ≤ s.length) && (s.take 11).all idChar

/-- Strip an exact literal from the front of the input, or fail. -/
def stripLit : List Char → List Char → Option (List Char)
  | [], s => some s
  | _ :: _, [] => none
  | a :: as, b :: bs => if a = b then stripLit as bs else none

/-- Sequencing in the pattern: the literal `lit`, then the rest of the
pattern `k`. -/
def litThen (lit : List Char) (k : List Char → Bool) (s : List Char) : Bool :=
  match stripLit lit s with
  | none => false
  | some r => k r

/-- The path alternative `.+\?v=` followed by the id group: at least one
non-newline character, then the literal `?v=`, then `idOk`. -/
def dotVEq : List Char → Bool
  | [] => false
  | c :: rest =>
    (c != '\n') && (litThen "?v=".data idOk rest || dotVEq rest)

/-- The optional path group `(watch\?v=|embed/|v/|.+\?v=)?` followed by the
id group, applied to the input remaining after `host/`: the three literal
alternatives, the `.+\?v=` alternative, and the empty alternative of the
optional group. -/
def pathId (s : List Char) : Bool :=
  litThen "watch?v=".data idOk s ||
  litThen "embed/".data idOk s ||
  litThen "v/".data idOk s ||
  dotVEq s ||
  idOk s

/-- The host-name alternation `(youtube|youtu|youtube-nocookie)`. -/
def hostNames : List (List Char) :=
  ["youtube".data, "youtu".data, "youtube-nocookie".data]

/-- The top-level-domain alternation `(com|be)`. -/
def tlds : List (List Char) :=
  ["com".data, "be".data]

/-- The host and everything after it:
`(youtube|youtu|youtube-nocookie)\.(com|be)/` then the path and id.  Host
name and top-level domain are independent alternations around the literal
`.`, followed by the literal `/`. -/
def hostTail (s : List Char) : Bool :=
  hostNames.any fun h =>
    tlds.any fun t =>
      litThen (h ++ '.' :: t ++ ['/']) pathId s

/-- The optional group `(www\.)?` then the host part: the empty
alternative or the literal `www.`. -/
def afterScheme (s : List Char) : Bool :=
  hostTail s || litThen "www.".data hostTail s

/-- `is_youtube_url` from `main.py` lines 19–25: `re.match` of the regex
`(https?://)?(www\.)?(youtube|youtu|youtube-nocookie)\.(com|be)/`
`(watch\?v=|embed/|v/|.+\?v=)?([^&=%\n]{11})` against the text, anchored
at the start only.  The optional scheme group `(https?://)?` contributes
the empty, `http://`, and `https://` alternatives. -/
def is_youtube_url (url : String) : Bool :=
  afterScheme url.data ||
  litThen "http://".data afterScheme url.data ||
  litThen "https://".data afterScheme url.data

/-! ### Stream variants and the selector -/

/-- A stream variant, with the attributes the handler consumes (spec §3):
progressive flag (`progressive=True` filter), container
(`file_extension='mp4'` filter), resolution as an ordinal rank
(`order_by('resolution')`), and the optional byte size (`stream.filesize`,
`None` when unknown). -/
structure Strm where
  progressive : Bool
  file_extension : String
  resolution : Nat
  filesize : Option Nat
  deriving DecidableEq, Repr

/-- `order_by('resolution').desc().first()`: the stable ascending sort is
reversed, so the head is the element of maximal resolution, the latest in
the original order among ties. -/
def firstMaxRes : List Strm → Option Strm
  | [] => none
  | s :: rest =>
    match firstMaxRes rest with
    | none => some s
    | some b => if s.resolution ≤ b.resolution then some b else some s

/-- The element of minimal resolution (earliest in the original order
among ties). -/
def firstMinRes : List Strm → Option Strm
  | [] => none
  | s :: rest =>
    match firstMinRes rest with
    | none => some s
    | some b => if b.resolution < s.resolution then some b else some s

/-- Modelled from the spec: `yt.streams.get_lowest_resolution()` is code of
the external `pytubefix` collaborator, not of this repository; the spec
describes this last-resort tier as "the single lowest-resolution variant
overall". -/
def get_lowest_resolution (l : List Strm) : Option Strm :=
  firstMinRes l

/-- The stream selection of `main.py` lines 99–107: highest-resolution
progressive mp4, else the first progressive variant of any container, else
`get_lowest_resolution`. -/
def select_stream (streams : List Strm) : Option Strm :=
  match firstMaxRes (streams.filter fun s =>
      s.progressive && s.file_extension == "mp4") with
  | some s => some s
  | none =>
    match (streams.filter fun s => s.progressive).head? with
    | some s => some s
    | none => get_lowest_resolution streams

/-- The four-tier selection order as the claim states it: tier 3 is the
highest-resolution video-only adaptive mp4 variant, tried before the
lowest-resolution last resort.  Stated from the claim's words, to be
compared with `select_stream`. -/
def claim_select_stream (streams : List Strm) : Option Strm :=
  match firstMaxRes (streams.filter fun s =>
      s.progressive && s.file_extension == "mp4") with
  | some s => some s
  | none =>
    match (streams.filter fun s => s.progressive).head? with
    | some s => some s
    | none =>
      match firstMaxRes (streams.filter fun s =>
          !s.progressive && s.file_extension == "mp4") with
      | some s => some s
      | none => firstMinRes streams

/-! ### Duration formatting, size check, error classification -/

/-- Python's `f"{n:02d}"` for a natural number: zero-padded to (at least)
two digits. -/
def fmt02 (n : Nat) : String :=
  if n < 10 then "0" ++ toString n else toString n

/-- The duration formatting of `main.py` lines 69–76. -/
def duration_str (d : Nat) : String :=
  let hours := d / 3600
  let minutes := (d % 3600) / 60
  let seconds := d % 60
  if hours > 0 then
    toString hours ++ ":" ++ fmt02 minutes ++ ":" ++ fmt02 seconds
  else
    toString minutes ++ ":" ++ fmt02 seconds

/-- The size guard of `main.py` lines 118–120.  `stream.filesize` is truthy
only when present and nonzero; the rejection test
`stream.filesize / (1024 * 1024) > 2000` is carried out by Python in
double-precision floating point, but dividing an integer by the power of
two `2^20` and comparing with 2000 is exact there, so the test is
equivalent to the integer comparison `filesize > 2000 * 1024 * 1024`. -/
def size_blocked : Option Nat → Bool
  | none => false
  | some n => if n != 0 then decide (2000 * 1024 * 1024 < n) else false

/-- Lowercase a string character by character (Python `str(e).lower()`;
the indicator words inspected are ASCII, where the two agree). -/
def lowerStr (s : String) : String :=
  String.mk (s.data.map Char.toLower)

/-- Python's substring test `needle in hay`. -/
def hasSub (needle : List Char) : List Char → Bool
  | [] => List.isPrefixOf needle []
  | c :: t => List.isPrefixOf needle (c :: t) || hasSub needle t

/-- The error-message classification of `main.py` lines 156–165: the
user-visible text appended to the fixed apology, chosen by inspecting
`str(e)`. -/
def error_text (e : String) : String :=
  let base := "❌ Sorry, I couldn't download this video.\n\n"
  if hasSub "unavailable".data (lowerStr e).data then
    base ++ "The video might be private, deleted, or geo-restricted."
  else if hasSub "403".data e.data then
    base ++ "Access denied. The video might be age-restricted or private."
  else if hasSub "timeout".data (lowerStr e).data then
    base ++ "Download timeout. Please try again."
  else
    base ++ "Please try again later or with a different video."

/-! ### The message handler as a trace-producing function -/

/-- Python's `str.strip()`: drop whitespace from both ends. -/
def strip (s : String) : String :=
  String.mk
    (((s.data.dropWhile Char.isWhitespace).reverse.dropWhile
        Char.isWhitespace).reverse)

/-- The video metadata consumed from the extraction collaborator
(spec §3, Video Reference): `yt.title`, `yt.length`, `yt.streams`. -/
structure VideoInfo where
  title : String
  length : Nat
  streams : List Strm
  deriving DecidableEq, Repr

/-- One observable effect of the handler, one constructor per call site in
`download_video` (`main.py` lines 49–176).  Edits carry the id of the
message they target (always the interim processing message in the code).
The size-limit edit carries the measured byte size instead of Python's
`f"{file_size_mb:.1f}MB"` rendering, abstracting only the float
formatting of that one number. -/
inductive Effect where
  | reply (toMsg : Nat) (text : String)
  | edit (msgId : Nat) (text : String)
  | editTooLarge (msgId : Nat) (filesizeBytes : Nat)
  | allocBuffer
  | transferBytes
  | sendVideo (replyToMsg : Nat) (caption : String)
  | deleteMsg (msgId : Nat)
  | closeBuffer
  deriving DecidableEq, Repr

/-- How one handler invocation ends. -/
inductive Outcome where
  | invalidUrl
  | errorCaught
  | tooLong
  | noStreams
  | tooLarge
  | success
  deriving DecidableEq, Repr

def invalidMsg : String :=
  "❌ Please send a valid YouTube URL.\n\nExample: https://www.youtube.com/watch?v=..."

def processingMsg : String :=
  "⏳ Processing your video... Please wait."

def tooLongMsg : String :=
  "❌ Video is too long (>6 hours). Please try a shorter video."

def noStreamsMsg : String :=
  "❌ No downloadable streams found for this video."

/-- The status edit of lines 88–93 / 133–138: video info plus a stage
line (`⬇️ Downloading...` or `📤 Uploading...`). -/
def infoText (title durStr stage : String) : String :=
  "📹 *" ++ title ++ "*\n⏱ Duration: " ++ durStr ++ "\n\n" ++ stage

/-- The caption of the uploaded video (line 144). -/
def captionText (title durStr : String) : String :=
  "🎬 " ++ title ++ "\n⏱ " ++ durStr

/-- The handler `download_video` (`main.py` lines 48–176) as a pure
function.  `mid` is the incoming message's id and `pm` the id the
transport assigns to the interim processing message.  The two fallible
collaborator calls are injected: `fetch` stands for the `YouTube(...)`
construction and metadata reads (lines 62–66), `dl` for
`stream.stream_to_buffer` (line 129); an `Except.error e` carries
`str(e)` of the raised exception.  The `finally` block closes the buffer
exactly on the paths that allocated it (allocation happens at line 96,
after the duration check and before stream selection). -/
def download_video (text : String) (mid pm : Nat)
    (fetch : Except String VideoInfo) (dl : Except String Unit) :
    List Effect × Outcome :=
  match is_youtube_url (strip text) with
  | false => ([.reply mid invalidMsg], .invalidUrl)
  | true =>
    let intro : List Effect := [.reply mid processingMsg]
    match fetch with
    | .error e => (intro ++ [.edit pm (error_text e)], .errorCaught)
    | .ok yt =>
      let durStr := duration_str yt.length
      if 21600 < yt.length then
        (intro ++ [.edit pm tooLongMsg], .tooLong)
      else
        let e2 : List Effect :=
          intro ++ [.edit pm (infoText yt.title durStr "⬇️ Downloading..."),
            .allocBuffer]
        match select_stream yt.streams with
        | none => (e2 ++ [.edit pm noStreamsMsg, .closeBuffer], .noStreams)
        | some st =>
          if size_blocked st.filesize then
            (e2 ++ [.editTooLarge pm (st.filesize.getD 0), .closeBuffer],
              .tooLarge)
          else
            let e3 := e2 ++ [.transferBytes]
            match dl with
            | .error e =>
              (e3 ++ [.edit pm (error_text e), .closeBuffer], .errorCaught)
            | .ok _ =>
              (e3 ++ [.edit pm (infoText yt.title durStr "📤 Uploading..."),
                .sendVideo mid (captionText yt.title durStr),
                .deleteMsg pm, .closeBuffer], .success)

/-! ### Trace observations used by the temporal and safety claims -/

/-- Is this effect a new outgoing message (a `bot.reply_to`)? -/
def isReply : Effect → Bool
  | .reply _ _ => true
  | _ => false

/-- Is this effect an edit of some message? -/
def isEdit : Effect → Bool
  | .edit _ _ => true
  | .editTooLarge _ _ => true
  | _ => false

/-- Is this effect an edit of the message with id `m`? -/
def editsMsg (m : Nat) : Effect → Bool
  | .edit i _ => i == m
  | .editTooLarge i _ => i == m
  | _ => false

/-- Does this text start with the `❌` marker?  Every failure text of the
handler begins with `❌`, while the two status edits begin with `📹`
whatever the title is, so the first character separates them. -/
def startsFail (t : String) : Bool :=
  List.isPrefixOf "❌".data t.data

/-- Is this effect an edit reporting a failure? -/
def isFailEdit : Effect → Bool
  | .edit _ t => startsFail t
  | .editTooLarge _ _ => true
  | _ => false

def isAlloc : Effect → Bool
  | .allocBuffer => true
  | _ => false

def isClose : Effect → Bool
  | .closeBuffer => true
  | _ => false

/-- Count of buffer allocations in a trace. -/
def allocCount (tr : List Effect) : Nat :=
  tr.countP fun e => isAlloc e

/-- Count of buffer releases in a trace. -/
def closeCount (tr : List Effect) : Nat :=
  tr.countP fun e => isClose e

/-! ### The language accepted by the URL matcher

The following grammar predicates state, in plain set-of-splits terms, which
strings the regex accepts; `c2_amended` below proves the matcher decides
exactly this language. -/

/-- The five alternatives of the optional path group: the three literals,
a nonempty run of non-newline characters followed by `?v=`, or nothing. -/
def PathIndicator (p : List Char) : Prop :=
  p = "watch?v=".data ∨ p = "embed/".data ∨ p = "v/".data ∨
    (∃ a, a ≠ [] ∧ (∀ c ∈ a, c ≠ '\n') ∧ p = a ++ "?v=".data) ∨ p = []

/-- The host-name alternation, as a predicate. -/
def HostName (h : List Char) : Prop :=
  h = "youtube".data ∨ h = "youtu".data ∨ h = "youtube-nocookie".data

/-- The top-level-domain alternation, as a predicate. -/
def Tld (t : List Char) : Prop :=
  t = "com".data ∨ t = "be".data

/-- The optional `www.` group, as a predicate. -/
def WwwOpt (w : List Char) : Prop :=
  w = [] ∨ w = "www.".data

/-- The optional scheme group, as a predicate. -/
def SchemeOpt (sch : List Char) : Prop :=
  sch = [] ∨ sch = "http://".data ∨ sch = "https://".data

/-- The language `is_youtube_url` actually accepts: optional scheme,
optional `www.`, a host name and a top-level domain as independent
alternations, `/`, an optional path indicator, an 11-character id token
avoiding `&`, `=`, `%` and newline — and arbitrary trailing text, since
the pattern has no end anchor. -/
def AmendedAccept (u : String) : Prop :=
  ∃ sch w h t p id rest,
    SchemeOpt sch ∧ WwwOpt w ∧ HostName h ∧ Tld t ∧ PathIndicator p ∧
    id.length = 11 ∧ (∀ c ∈ id, idChar c = true) ∧
    u.data = sch ++ w ++ h ++ '.' :: t ++ '/' :: (p ++ id ++ rest)

/-! ### The grammar claim C2 describes, stated from the claim's words -/

/-- The claim's id requirement: the text terminates in exactly an
11-character id token. -/
def idExact (s : List Char) : Bool :=
  decide (s.length = 11) && s.all idChar

/-- The claim's query form: text containing `?v=`, then the terminating
id. -/
def claimDotVEq : List Char → Bool
  | [] => false
  | c :: rest =>
    (c != '\n') && (litThen "?v=".data idExact rest || claimDotVEq rest)

/-- The claim's path requirement — a mandatory path indicator `watch?v=`,
`embed/`, `v/`, or a query form containing `?v=` — followed by the
terminating id. -/
def claimPathId (s : List Char) : Bool :=
  litThen "watch?v=".data idExact s ||
  litThen "embed/".data idExact s ||
  litThen "v/".data idExact s ||
  claimDotVEq s

/-- The validator behaviour claim C2 describes: one of the hosts
`youtube.com`, `youtu.be`, `youtube-nocookie.com` (scheme and `www.`
optional), then a mandatory path indicator, then exactly an 11-character
id ending the text. -/
def claim_youtube_url (url : String) : Bool :=
  let hostPart (s : List Char) : Bool :=
    litThen "youtube.com/".data claimPathId s ||
    litThen "youtu.be/".data claimPathId s ||
    litThen "youtube-nocookie.com/".data claimPathId s
  let wwwPart (s : List Char) : Bool :=
    hostPart s || litThen "www.".data hostPart s
  wwwPart url.data ||
  litThen "http://".data wwwPart url.data ||
  litThen "https://".data wwwPart url.data

theorem stripLit_eq_some (pre : List Char) :
    ∀ s r : List Char, stripLit pre s = some r ↔ s = pre ++ r := by
  induction pre with
  | nil => intro s r; simp [stripLit]
  | cons a as ih =>
    intro s r
    cases s with
    | nil => simp [stripLit]
    | cons b bs =>
      rcases eq_or_ne a b with hab | hab
      · subst hab
        simp [stripLit, ih]
      · simp [stripLit, hab, Ne.symm hab]

theorem litThen_eq_true (lit : List Char) (k : List Char → Bool)
    (s : List Char) :
    litThen lit k s = true ↔ ∃ r, s = lit ++ r ∧ k r = true := by
  unfold litThen
  cases h : stripLit lit s with
  | none =>
    simp only [Bool.false_eq_true, false_iff]
    rintro ⟨r, hs, -⟩
    rw [(stripLit_eq_some lit s r).mpr hs] at h
    cases h
  | some r =>
    have hs := (stripLit_eq_some lit s r).mp h
    constructor
    · intro hk
      exact ⟨r, hs, hk⟩
    · rintro ⟨r2, hs2, hk2⟩
      have hrr : r = r2 := List.append_cancel_left (hs ▸ hs2)
      exact hrr ▸ hk2

theorem idOk_eq_true (s : List Char) :
    idOk s = true ↔
      ∃ id rest, s = id ++ rest ∧ id.length = 11 ∧
        ∀ c ∈ id, idChar c = true := by
  unfold idOk
  rw [Bool.and_eq_true, decide_eq_true_iff, List.all_eq_true]
  constructor
  · rintro ⟨h1, h2⟩
    refine ⟨s.take 11, s.drop 11, (List.take_append_drop 11 s).symm, ?_, h2⟩
    rw [List.length_take]
    exact Nat.min_eq_left h1
  · rintro ⟨id, rest, rfl, hlen, hall⟩
    constructor
    · rw [List.length_append]
      omega
    · intro c hc
      rw [← hlen, List.take_left] at hc
      exact hall c hc

theorem dotVEq_eq_true :
    ∀ s : List Char, dotVEq s = true ↔
      ∃ a r, a ≠ [] ∧ (∀ c ∈ a, c ≠ '\n') ∧ s = a ++ "?v=".data ++ r ∧
        idOk r = true := by
  intro s
  induction s with
  | nil =>
    constructor
    · intro h
      exact absurd h (by decide)
    · rintro ⟨a, r, ha, -, heq, -⟩
      obtain ⟨h1, -⟩ := List.append_eq_nil.mp heq.symm
      exact absurd (List.append_eq_nil.mp h1).1 ha
  | cons c rest ih =>
    simp only [dotVEq, Bool.and_eq_true, Bool.or_eq_true, bne_iff_ne,
      litThen_eq_true, ih]
    constructor
    · rintro ⟨hc, ⟨r, hrest, hid⟩ | ⟨a, r, ha, hnl, heq, hid⟩⟩
      · refine ⟨[c], r, by simp, ?_, by simp [hrest], hid⟩
        intro x hx
        rw [List.mem_singleton] at hx
        exact hx ▸ hc
      · refine ⟨c :: a, r, by simp, ?_, by simp [heq], hid⟩
        intro x hx
        rcases List.mem_cons.mp hx with rfl | hx'
        · exact hc
        · exact hnl x hx'
    · rintro ⟨a, r, ha, hnl, heq, hid⟩
      cases a with
      | nil => exact absurd rfl ha
      | cons a0 a' =>
        rw [List.cons_append, List.cons_append, List.cons.injEq] at heq
        obtain ⟨rfl, hrest⟩ := heq
        refine ⟨hnl c (List.mem_cons_self c a'), ?_⟩
        cases a' with
        | nil =>
          left
          exact ⟨r, by simpa using hrest, hid⟩
        | cons a1 a'' =>
          right
          refine ⟨a1 :: a'', r, by simp, ?_, hrest, hid⟩
          intro x hx
          exact hnl x (List.mem_cons_of_mem c hx)

theorem pathId_eq_true (s : List Char) :
    pathId s = true ↔
      ∃ p id rest, PathIndicator p ∧ id.length = 11 ∧
        (∀ c ∈ id, idChar c = true) ∧ s = p ++ id ++ rest := by
  unfold pathId PathIndicator
  simp only [Bool.or_eq_true, litThen_eq_true, dotVEq_eq_true, idOk_eq_true]
  constructor
  · rintro ((((⟨r, hs, id, rest, rfl, hlen, hall⟩ |
        ⟨r, hs, id, rest, rfl, hlen, hall⟩) |
        ⟨r, hs, id, rest, rfl, hlen, hall⟩) |
        ⟨a, r, ha, hnl, hs, id, rest, rfl, hlen, hall⟩) |
        ⟨id, rest, hs, hlen, hall⟩)
    · exact ⟨"watch?v=".data, id, rest, Or.inl rfl, hlen, hall,
        by simp [hs, List.append_assoc]⟩
    · exact ⟨"embed/".data, id, rest, Or.inr (Or.inl rfl), hlen, hall,
        by simp [hs, List.append_assoc]⟩
    · exact ⟨"v/".data, id, rest, Or.inr (Or.inr (Or.inl rfl)), hlen, hall,
        by simp [hs, List.append_assoc]⟩
    · exact ⟨a ++ "?v=".data, id, rest,
        Or.inr (Or.inr (Or.inr (Or.inl ⟨a, ha, hnl, rfl⟩))), hlen, hall,
        by simp [hs, List.append_assoc]⟩
    · exact ⟨[], id, rest, Or.inr (Or.inr (Or.inr (Or.inr rfl))), hlen, hall,
        by simp [hs]⟩
  · rintro ⟨p, id, rest, hp, hlen, hall, hs⟩
    rcases hp with rfl | rfl | rfl | ⟨a, ha, hnl, rfl⟩ | rfl
    · exact Or.inl (Or.inl (Or.inl (Or.inl
        ⟨id ++ rest, by simp [hs, List.append_assoc], id, rest, rfl, hlen,
          hall⟩)))
    · exact Or.inl (Or.inl (Or.inl (Or.inr
        ⟨id ++ rest, by simp [hs, List.append_assoc], id, rest, rfl, hlen,
          hall⟩)))
    · exact Or.inl (Or.inl (Or.inr
        ⟨id ++ rest, by simp [hs, List.append_assoc], id, rest, rfl, hlen,
          hall⟩))
    · exact Or.inl (Or.inr
        ⟨a, id ++ rest, ha, hnl, by simp [hs, List.append_assoc], id, rest,
          rfl, hlen, hall⟩)
    · exact Or.inr ⟨id, rest, by simpa using hs, hlen, hall⟩

theorem hostTail_eq_true (s : List Char) :
    hostTail s = true ↔
      ∃ h t r, HostName h ∧ Tld t ∧ s = h ++ '.' :: t ++ '/' :: r ∧
        pathId r = true := by
  unfold hostTail
  rw [List.any_eq_true]
  constructor
  · rintro ⟨h, hmem, hrest⟩
    rw [List.any_eq_true] at hrest
    obtain ⟨t, tmem, hlit⟩ := hrest
    rw [litThen_eq_true] at hlit
    obtain ⟨r, hs, hr⟩ := hlit
    refine ⟨h, t, r, ?_, ?_, by simp [hs, List.append_assoc], hr⟩
    · simpa [hostNames, HostName] using hmem
    · simpa [tlds, Tld] using tmem
  · rintro ⟨h, t, r, hh, ht, hs, hr⟩
    refine ⟨h, by simpa [hostNames, HostName] using hh, ?_⟩
    rw [List.any_eq_true]
    refine ⟨t, by simpa [tlds, Tld] using ht, ?_⟩
    rw [litThen_eq_true]
    exact ⟨r, by simp [hs, List.append_assoc], hr⟩

theorem afterScheme_eq_true (s : List Char) :
    afterScheme s = true ↔
      ∃ w r, WwwOpt w ∧ s = w ++ r ∧ hostTail r = true := by
  unfold afterScheme WwwOpt
  simp only [Bool.or_eq_true, litThen_eq_true]
  constructor
  · rintro (hs | ⟨r, hs, hr⟩)
    · exact ⟨[], s, Or.inl rfl, by simp, hs⟩
    · exact ⟨"www.".data, r, Or.inr rfl, hs, hr⟩
  · rintro ⟨w, r, hw | hw, hs, hr⟩
    · subst hw
      simp only [List.nil_append] at hs
      exact Or.inl (hs ▸ hr)
    · subst hw
      exact Or.inr ⟨r, hs, hr⟩

theorem is_youtube_url_eq_true (u : String) :
    is_youtube_url u = true ↔
      ∃ sch r, SchemeOpt sch ∧ u.data = sch ++ r ∧
        afterScheme r = true := by
  unfold is_youtube_url SchemeOpt
  simp only [Bool.or_eq_true, litThen_eq_true]
  constructor
  · rintro ((hs | ⟨r, hs, hr⟩) | ⟨r, hs, hr⟩)
    · exact ⟨[], u.data, Or.inl rfl, by simp, hs⟩
    · exact ⟨"http://".data, r, Or.inr (Or.inl rfl), hs, hr⟩
    · exact ⟨"https://".data, r, Or.inr (Or.inr rfl), hs, hr⟩
  · rintro ⟨sch, r, hsch | hsch | hsch, hs, hr⟩
    · subst hsch
      simp only [List.nil_append] at hs
      exact Or.inl (Or.inl (hs ▸ hr))
    · subst hsch
      exact Or.inl (Or.inr ⟨r, hs, hr⟩)
    · subst hsch
      exact Or.inr ⟨r, hs, hr⟩

/-! ### Claim C2 -/

/-- C2, counterexample: the claim says the validator "returns true exactly
for" texts with one of the listed hosts followed by one of the listed path
indicators and a terminating 11-character id.  The text
`youtube.com/abcdefghijk` has no path indicator at all, so the claim's
grammar (`claim_youtube_url`) rejects it — yet `is_youtube_url` accepts
it, because the regex's path group is optional. -/
theorem c2_counterexample :
    is_youtube_url "youtube.com/abcdefghijk" = true ∧
    claim_youtube_url "youtube.com/abcdefghijk" = false := by
  constructor
  · decide
  · decide

/-- C2, amended: `is_youtube_url url` is true exactly when the text starts
with an optional scheme (`http://` or `https://`), an optional `www.`, a
host name among `youtube`, `youtu`, `youtube-nocookie` and a top-level
domain among `com`, `be` combined freely, a `/`, an optional path
indicator (`watch?v=`, `embed/`, `v/`, a nonempty non-newline run followed
by `?v=`, or nothing), and then an 11-character id token of characters
other than `&`, `=`, `%` and newline — arbitrary text may follow the
token.  The spec's three examples evaluate as stated. -/
theorem c2_amended :
    (∀ u : String, is_youtube_url u = true ↔ AmendedAccept u) ∧
    is_youtube_url "https://www.youtube.com/watch?v=dQw4w9WgXcQ" = true ∧
    is_youtube_url "https://youtu.be/dQw4w9WgXcQ" = true ∧
    is_youtube_url "https://example.com/watch?v=dQw4w9WgXcQ" = false := by
  refine ⟨?_, by decide, by decide, by decide⟩
  intro u
  rw [is_youtube_url_eq_true]
  unfold AmendedAccept
  constructor
  · rintro ⟨sch, r1, hsch, hu, hr1⟩
    rw [afterScheme_eq_true] at hr1
    obtain ⟨w, r2, hw, hr1eq, hr2⟩ := hr1
    rw [hostTail_eq_true] at hr2
    obtain ⟨h, t, r3, hh, ht, hr2eq, hr3⟩ := hr2
    rw [pathId_eq_true] at hr3
    obtain ⟨p, id, rest, hp, hlen, hall, hr3eq⟩ := hr3
    refine ⟨sch, w, h, t, p, id, rest, hsch, hw, hh, ht, hp, hlen, hall, ?_⟩
    subst hr3eq hr2eq hr1eq
    simp [hu, List.append_assoc]
  · rintro ⟨sch, w, h, t, p, id, rest, hsch, hw, hh, ht, hp, hlen, hall, hu⟩
    refine ⟨sch, w ++ h ++ '.' :: t ++ '/' :: (p ++ id ++ rest), hsch,
      by simp [hu, List.append_assoc], ?_⟩
    rw [afterScheme_eq_true]
    refine ⟨w, h ++ '.' :: t ++ '/' :: (p ++ id ++ rest), hw,
      by simp [List.append_assoc], ?_⟩
    rw [hostTail_eq_true]
    refine ⟨h, t, p ++ id ++ rest, hh, ht, rfl, ?_⟩
    rw [pathId_eq_true]
    exact ⟨p, id, rest, hp, hlen, hall, rfl⟩

/-! ### Claim C10 -/

/-- C10: because the regex matches the host name and the top-level domain
as independent alternations, `is_youtube_url` also accepts cross-product
hosts absent from the spec's host list, such as `youtu.com` and
`youtube.be`. -/
theorem c10_cross_product_hosts :
    is_youtube_url "youtu.com/dQw4w9WgXcQ" = true ∧
    is_youtube_url "youtube.be/dQw4w9WgXcQ" = true ∧
    is_youtube_url "https://www.youtube-nocookie.be/embed/dQw4w9WgXcQ" = true := by
  refine ⟨by decide, by decide, by decide⟩

/-! ### Lemmas about the stream selector -/

theorem firstMaxRes_eq_none (l : List Strm) :
    firstMaxRes l = none ↔ l = [] := by
  cases l with
  | nil => simp [firstMaxRes]
  | cons s rest =>
    cases hr : firstMaxRes rest with
    | none => simp [firstMaxRes, hr]
    | some b =>
      simp only [firstMaxRes, hr]
      split <;> simp

theorem firstMaxRes_mem : ∀ (l : List Strm) (b : Strm),
    firstMaxRes l = some b → b ∈ l := by
  intro l
  induction l with
  | nil => intro b h; simp [firstMaxRes] at h
  | cons s rest ih =>
    intro b h
    cases hr : firstMaxRes rest with
    | none =>
      simp only [firstMaxRes, hr] at h
      obtain rfl := Option.some.inj h
      exact List.mem_cons_self _ _
    | some c =>
      simp only [firstMaxRes, hr] at h
      by_cases hle : s.resolution ≤ c.resolution
      · rw [if_pos hle] at h
        obtain rfl := Option.some.inj h
        exact List.mem_cons_of_mem s (ih c hr)
      · rw [if_neg hle] at h
        obtain rfl := Option.some.inj h
        exact List.mem_cons_self _ _

theorem firstMaxRes_le : ∀ (l : List Strm) (b : Strm),
    firstMaxRes l = some b → ∀ x ∈ l, x.resolution ≤ b.resolution := by
  intro l
  induction l with
  | nil => intro b h; simp [firstMaxRes] at h
  | cons s rest ih =>
    intro b h x hx
    cases hr : firstMaxRes rest with
    | none =>
      simp only [firstMaxRes, hr] at h
      obtain rfl := Option.some.inj h
      obtain rfl := (firstMaxRes_eq_none rest).mp hr
      rw [List.mem_singleton] at hx
      exact hx ▸ Nat.le_refl _
    | some c =>
      simp only [firstMaxRes, hr] at h
      rcases List.mem_cons.mp hx with rfl | hx'
      · by_cases hle : x.resolution ≤ c.resolution
        · rw [if_pos hle] at h
          obtain rfl := Option.some.inj h
          exact hle
        · rw [if_neg hle] at h
          obtain rfl := Option.some.inj h
          exact Nat.le_refl _
      · by_cases hle : s.resolution ≤ c.resolution
        · rw [if_pos hle] at h
          obtain rfl := Option.some.inj h
          exact ih c hr x hx'
        · rw [if_neg hle] at h
          obtain rfl := Option.some.inj h
          exact Nat.le_trans (ih c hr x hx') (Nat.le_of_not_le hle)

theorem firstMinRes_eq_none (l : List Strm) :
    firstMinRes l = none ↔ l = [] := by
  cases l with
  | nil => simp [firstMinRes]
  | cons s rest =>
    cases hr : firstMinRes rest with
    | none => simp [firstMinRes, hr]
    | some b =>
      simp only [firstMinRes, hr]
      split <;> simp

theorem firstMinRes_mem : ∀ (l : List Strm) (b : Strm),
    firstMinRes l = some b → b ∈ l := by
  intro l
  induction l with
  | nil => intro b h; simp [firstMinRes] at h
  | cons s rest ih =>
    intro b h
    cases hr : firstMinRes rest with
    | none =>
      simp only [firstMinRes, hr] at h
      obtain rfl := Option.some.inj h
      exact List.mem_cons_self _ _
    | some c =>
      simp only [firstMinRes, hr] at h
      by_cases hlt : c.resolution < s.resolution
      · rw [if_pos hlt] at h
        obtain rfl := Option.some.inj h
        exact List.mem_cons_of_mem s (ih c hr)
      · rw [if_neg hlt] at h
        obtain rfl := Option.some.inj h
        exact List.mem_cons_self _ _

theorem firstMinRes_le : ∀ (l : List Strm) (b : Strm),
    firstMinRes l = some b → ∀ x ∈ l, b.resolution ≤ x.resolution := by
  intro l
  induction l with
  | nil => intro b h; simp [firstMinRes] at h
  | cons s rest ih =>
    intro b h x hx
    cases hr : firstMinRes rest with
    | none =>
      simp only [firstMinRes, hr] at h
      obtain rfl := Option.some.inj h
      obtain rfl := (firstMinRes_eq_none rest).mp hr
      rw [List.mem_singleton] at hx
      exact hx ▸ Nat.le_refl _
    | some c =>
      simp only [firstMinRes, hr] at h
      rcases List.mem_cons.mp hx with rfl | hx'
      · by_cases hlt : c.resolution < x.resolution
        · rw [if_pos hlt] at h
          obtain rfl := Option.some.inj h
          exact Nat.le_of_lt hlt
        · rw [if_neg hlt] at h
          obtain rfl := Option.some.inj h
          exact Nat.le_refl _
      · by_cases hlt : c.resolution < s.resolution
        · rw [if_pos hlt] at h
          obtain rfl := Option.some.inj h
          exact ih c hr x hx'
        · rw [if_neg hlt] at h
          obtain rfl := Option.some.inj h
          exact Nat.le_trans (Nat.le_of_not_lt hlt) (ih c hr x hx')

/-! ### Claim C1 -/

/-- C1, counterexample: the claim's tier 3 (highest-resolution video-only
adaptive mp4) does not exist in `main.py`.  On a variant set with only two
video-only mp4 streams, the claim's order picks the 1080 one while the
code falls through to the lowest-resolution last resort and picks the 360
one. -/
theorem c1_counterexample :
    select_stream [⟨false, "mp4", 1080, none⟩, ⟨false, "mp4", 360, none⟩] =
      some ⟨false, "mp4", 360, none⟩ ∧
    claim_select_stream
        [⟨false, "mp4", 1080, none⟩, ⟨false, "mp4", 360, none⟩] =
      some ⟨false, "mp4", 1080, none⟩ ∧
    (⟨false, "mp4", 360, none⟩ : Strm) ≠ ⟨false, "mp4", 1080, none⟩ := by
  refine ⟨by decide, by decide, by decide⟩

/-- C1, amended: stream selection follows the three-tier fallback order of
the code: (1) a progressive mp4 variant of maximal resolution, (2) the
first progressive variant in any container, (3) the lowest-resolution
variant overall; there is no video-only adaptive tier.  The selector
returns a member of the set, returns nothing exactly on the empty set, and
the handler signals "no downloadable streams" exactly when the set is
empty. -/
theorem c1_amended (l : List Strm) :
    (select_stream l = none ↔ l = []) ∧
    (∀ s, select_stream l = some s → s ∈ l) ∧
    ((∃ x, x ∈ l ∧ x.progressive = true ∧ x.file_extension = "mp4") →
      ∀ s, select_stream l = some s →
        s.progressive = true ∧ s.file_extension = "mp4" ∧
        ∀ x ∈ l, x.progressive = true → x.file_extension = "mp4" →
          x.resolution ≤ s.resolution) ∧
    ((¬ ∃ x, x ∈ l ∧ x.progressive = true ∧ x.file_extension = "mp4") →
      (∃ x, x ∈ l ∧ x.progressive = true) →
      select_stream l = (l.filter fun x => x.progressive).head?) ∧
    ((∀ x ∈ l, x.progressive = false) →
      ∀ s, select_stream l = some s →
        ∀ x ∈ l, s.resolution ≤ x.resolution) ∧
    (∀ text mid pm title dur dl,
      is_youtube_url (strip text) = true → dur ≤ 21600 →
      ((download_video text mid pm (.ok ⟨title, dur, l⟩) dl).2 =
          .noStreams ↔ l = [])) := by
  have hA : select_stream l = none ↔ l = [] := by
    unfold select_stream get_lowest_resolution
    cases h1 : firstMaxRes (l.filter fun s =>
        s.progressive && s.file_extension == "mp4") with
    | some b =>
      constructor
      · intro h
        exact Option.noConfusion h
      · rintro rfl
        simp [firstMaxRes] at h1
    | none =>
      cases h2 : (l.filter fun s => s.progressive).head? with
      | some c =>
        constructor
        · intro h
          exact Option.noConfusion h
        · rintro rfl
          simp at h2
      | none =>
        exact firstMinRes_eq_none l
  have hMem : ∀ s, select_stream l = some s → s ∈ l := by
    intro s
    unfold select_stream get_lowest_resolution
    cases h1 : firstMaxRes (l.filter fun x =>
        x.progressive && x.file_extension == "mp4") with
    | some b =>
      intro hs
      obtain rfl := (Option.some.inj hs).symm
      exact (List.mem_filter.mp (firstMaxRes_mem _ _ h1)).1
    | none =>
      cases h2 : (l.filter fun x => x.progressive).head? with
      | some c =>
        intro hs
        obtain rfl := (Option.some.inj hs).symm
        exact (List.mem_filter.mp (List.mem_of_mem_head? h2)).1
      | none =>
        intro hs
        exact firstMinRes_mem l s hs
  have hT1 : (∃ x, x ∈ l ∧ x.progressive = true ∧ x.file_extension = "mp4") →
      ∀ s, select_stream l = some s →
        s.progressive = true ∧ s.file_extension = "mp4" ∧
        ∀ x ∈ l, x.progressive = true → x.file_extension = "mp4" →
          x.resolution ≤ s.resolution := by
    rintro ⟨x, hxl, hxp, hxe⟩ s
    unfold select_stream
    cases h1 : firstMaxRes (l.filter fun y =>
        y.progressive && y.file_extension == "mp4") with
    | none =>
      rw [firstMaxRes_eq_none, List.filter_eq_nil_iff] at h1
      exact (h1 x hxl (by simp [hxp, hxe])).elim
    | some b =>
      intro hs
      obtain rfl := (Option.some.inj hs).symm
      have hbmem := List.mem_filter.mp (firstMaxRes_mem _ _ h1)
      obtain ⟨-, hbp⟩ := hbmem
      rw [Bool.and_eq_true, beq_iff_eq] at hbp
      refine ⟨hbp.1, hbp.2, ?_⟩
      intro y hyl hyp hye
      refine firstMaxRes_le _ _ h1 y ?_
      rw [List.mem_filter]
      exact ⟨hyl, by simp [hyp, hye]⟩
  have hT2 : (¬ ∃ x, x ∈ l ∧ x.progressive = true ∧
        x.file_extension = "mp4") →
      (∃ x, x ∈ l ∧ x.progressive = true) →
      select_stream l = (l.filter fun x => x.progressive).head? := by
    rintro hno ⟨x, hxl, hxp⟩
    have h1 : firstMaxRes (l.filter fun y =>
        y.progressive && y.file_extension == "mp4") = none := by
      rw [firstMaxRes_eq_none, List.filter_eq_nil_iff]
      intro a hal hab
      rw [Bool.and_eq_true, beq_iff_eq] at hab
      exact hno ⟨a, hal, hab.1, hab.2⟩
    unfold select_stream
    rw [h1]
    cases h2 : (l.filter fun y => y.progressive).head? with
    | some c => rfl
    | none =>
      rw [List.head?_eq_none_iff, List.filter_eq_nil_iff] at h2
      exact absurd hxp (h2 x hxl)
  have hT3 : (∀ x ∈ l, x.progressive = false) →
      ∀ s, select_stream l = some s →
        ∀ x ∈ l, s.resolution ≤ x.resolution := by
    intro hall s
    have h1 : firstMaxRes (l.filter fun y =>
        y.progressive && y.file_extension == "mp4") = none := by
      rw [firstMaxRes_eq_none, List.filter_eq_nil_iff]
      intro a hal hab
      rw [Bool.and_eq_true] at hab
      rw [hall a hal] at hab
      exact Bool.noConfusion hab.1
    have h2 : (l.filter fun y => y.progressive).head? = none := by
      rw [List.head?_eq_none_iff, List.filter_eq_nil_iff]
      intro a hal
      simp [hall a hal]
    unfold select_stream get_lowest_resolution
    rw [h1, h2]
    intro hs
    exact firstMinRes_le l s hs
  refine ⟨hA, hMem, hT1, hT2, hT3, ?_⟩
  intro text mid pm title dur dl hv hd
  simp only [download_video, hv]
  rw [if_neg (by omega : ¬ 21600 < dur)]
  cases hsel : select_stream l with
  | none =>
    exact iff_of_true (by simp) (hA.mp hsel)
  | some st =>
    have hlne : ¬ l = [] := by
      intro hl
      rw [hl] at hsel
      exact Option.noConfusion
        ((by decide : select_stream ([] : List Strm) = none).symm.trans hsel)
    cases hsb : size_blocked st.filesize with
    | true => exact iff_of_false (by simp [hsb]) hlne
    | false =>
      cases dl with
      | error e => exact iff_of_false (by simp [hsb]) hlne
      | ok u => exact iff_of_false (by simp [hsb]) hlne

/-- C1, witness: on a set with one progressive mp4 (720) and one
progressive non-mp4 (1080), the code selects the progressive mp4 and it is
maximal among progressive mp4 variants. -/
theorem c1_amended_witness :
    (⟨true, "mp4", 720, none⟩ : Strm).progressive = true ∧
    (⟨true, "mp4", 720, none⟩ : Strm).file_extension = "mp4" ∧
    ∀ x ∈ [(⟨true, "mp4", 720, none⟩ : Strm), ⟨true, "3gp", 1080, none⟩],
      x.progressive = true → x.file_extension = "mp4" →
        x.resolution ≤ (⟨true, "mp4", 720, none⟩ : Strm).resolution :=
  (c1_amended [⟨true, "mp4", 720, none⟩, ⟨true, "3gp", 1080, none⟩]).2.2.1
    ⟨⟨true, "mp4", 720, none⟩, by decide, by decide, by decide⟩
    ⟨true, "mp4", 720, none⟩ (by decide)

/-! ### Claim C3 -/

/-- C3: when the fetched duration exceeds 21600 seconds the handler stops
with the duration-limit edit right after the interim message — the trace
is exactly the interim reply and the limit edit, contains no buffer
allocation and no byte transfer, and does not depend on the variant set
at all (so no stream selection has taken place).  A duration of exactly
21600 is never rejected on duration grounds. -/
theorem c3_duration_limit (text : String) (mid pm : Nat) (info : VideoInfo)
    (dl : Except String Unit) (hv : is_youtube_url (strip text) = true) :
    (21600 < info.length →
      ∀ streams2, download_video text mid pm
          (.ok ⟨info.title, info.length, streams2⟩) dl =
        ([.reply mid processingMsg, .edit pm tooLongMsg], .tooLong)) ∧
    (info.length = 21600 →
      (download_video text mid pm (.ok info) dl).2 ≠ .tooLong) := by
  constructor
  · intro hlong streams2
    simp only [download_video, hv]
    rw [if_pos (by simpa using hlong)]
    simp
  · intro h21600
    simp only [download_video, hv]
    rw [if_neg (by omega)]
    cases hsel : select_stream info.streams with
    | none => simp
    | some st =>
      cases hsb : size_blocked st.filesize with
      | true => simp [hsb]
      | false =>
        cases dl with
        | error e => simp [hsb]
        | ok u => simp [hsb]

/-- C3, witness: duration 21601 is rejected with exactly the two-message
trace; duration 21600 is not rejected on duration grounds. -/
theorem c3_witness :
    download_video "https://youtu.be/dQw4w9WgXcQ" 1 2
        (.ok ⟨"T", 21601, []⟩) (.ok ()) =
      ([.reply 1 processingMsg, .edit 2 tooLongMsg], .tooLong) ∧
    (download_video "https://youtu.be/dQw4w9WgXcQ" 1 2
        (.ok ⟨"T", 21600, []⟩) (.ok ())).2 ≠ .tooLong := by
  constructor
  · exact (c3_duration_limit "https://youtu.be/dQw4w9WgXcQ" 1 2
      ⟨"T", 21601, []⟩ (.ok ()) (by decide)).1 (by decide) []
  · exact (c3_duration_limit "https://youtu.be/dQw4w9WgXcQ" 1 2
      ⟨"T", 21600, []⟩ (.ok ()) (by decide)).2 rfl

/-! ### Claim C4 -/

/-- C4: a selected stream with a known byte size above 2000 MiB is
rejected before any byte transfer — the trace ends at the size-limit edit
carrying the measured size and contains no `transferBytes`.  An unknown
size is never rejected on size grounds, and a size of exactly 2000 MiB
passes the check. -/
theorem c4_size_limit (text : String) (mid pm : Nat) (info : VideoInfo)
    (dl : Except String Unit) (st : Strm)
    (hv : is_youtube_url (strip text) = true)
    (hd : info.length ≤ 21600)
    (hsel : select_stream info.streams = some st) :
    (∀ n, st.filesize = some n → 2000 * 1024 * 1024 < n →
      download_video text mid pm (.ok info) dl =
        ([.reply mid processingMsg,
          .edit pm (infoText info.title (duration_str info.length)
            "⬇️ Downloading..."),
          .allocBuffer, .editTooLarge pm n, .closeBuffer], .tooLarge)) ∧
    (st.filesize = none →
      (download_video text mid pm (.ok info) dl).2 ≠ .tooLarge) ∧
    (st.filesize = some (2000 * 1024 * 1024) →
      (download_video text mid pm (.ok info) dl).2 ≠ .tooLarge) := by
  refine ⟨?_, ?_, ?_⟩
  · intro n hn hbig
    have hne : n ≠ 0 := by omega
    have hsb : size_blocked (some n) = true := by
      simp [size_blocked, hne, hbig]
    simp only [download_video, hv]
    rw [if_neg (by omega)]
    simp [hsel, hn, hsb]
  · intro hnone
    have hsb : size_blocked st.filesize = false := by
      rw [hnone]
      decide
    simp only [download_video, hv]
    rw [if_neg (by omega)]
    cases dl with
    | error e => simp [hsel, hsb]
    | ok u => simp [hsel, hsb]
  · intro heq
    have hsb : size_blocked st.filesize = false := by
      rw [heq]
      decide
    simp only [download_video, hv]
    rw [if_neg (by omega)]
    cases dl with
    | error e => simp [hsel, hsb]
    | ok u => simp [hsel, hsb]

/-- C4, witness: a known size of 2001 MiB (2098200576 bytes) is rejected
with the size edit carrying the measured byte count; an unknown size and
a size of exactly 2000 MiB are not rejected on size grounds. -/
theorem c4_witness :
    download_video "https://youtu.be/dQw4w9WgXcQ" 1 2
        (.ok ⟨"T", 100, [⟨true, "mp4", 720, some 2098200576⟩]⟩) (.ok ()) =
      ([.reply 1 processingMsg,
        .edit 2 (infoText "T" (duration_str 100) "⬇️ Downloading..."),
        .allocBuffer, .editTooLarge 2 2098200576, .closeBuffer],
        .tooLarge) ∧
    (download_video "https://youtu.be/dQw4w9WgXcQ" 1 2
        (.ok ⟨"T", 100, [⟨true, "mp4", 720, none⟩]⟩) (.ok ())).2 ≠
      .tooLarge ∧
    (download_video "https://youtu.be/dQw4w9WgXcQ" 1 2
        (.ok ⟨"T", 100, [⟨true, "mp4", 720, some 2097152000⟩]⟩)
        (.ok ())).2 ≠ .tooLarge := by
  refine ⟨?_, ?_, ?_⟩
  · exact (c4_size_limit "https://youtu.be/dQw4w9WgXcQ" 1 2
      ⟨"T", 100, [⟨true, "mp4", 720, some 2098200576⟩]⟩ (.ok ())
      ⟨true, "mp4", 720, some 2098200576⟩ (by decide) (by decide)
      (by decide)).1 2098200576 rfl (by decide)
  · exact (c4_size_limit "https://youtu.be/dQw4w9WgXcQ" 1 2
      ⟨"T", 100, [⟨true, "mp4", 720, none⟩]⟩ (.ok ())
      ⟨true, "mp4", 720, none⟩ (by decide) (by decide)
      (by decide)).2.1 rfl
  · exact (c4_size_limit "https://youtu.be/dQw4w9WgXcQ" 1 2
      ⟨"T", 100, [⟨true, "mp4", 720, some 2097152000⟩]⟩ (.ok ())
      ⟨true, "mp4", 720, some 2097152000⟩ (by decide) (by decide)
      (by decide)).2.2 rfl

/-! ### Claim C9 -/

/-- C9: a selected stream reporting a byte size of exactly 0 is treated
like one with unknown size — Python's truthiness guard skips the
size-limit check — and the handler proceeds to the byte transfer. -/
theorem c9_zero_filesize (text : String) (mid pm : Nat) (info : VideoInfo)
    (dl : Except String Unit) (st : Strm)
    (hv : is_youtube_url (strip text) = true)
    (hd : info.length ≤ 21600)
    (hsel : select_stream info.streams = some st)
    (h0 : st.filesize = some 0) :
    size_blocked (some 0) = size_blocked none ∧
    Effect.transferBytes ∈ (download_video text mid pm (.ok info) dl).1 := by
  refine ⟨by decide, ?_⟩
  have hsb : size_blocked st.filesize = false := by
    rw [h0]
    decide
  simp only [download_video, hv]
  rw [if_neg (by omega)]
  cases dl with
  | error e => simp [hsel, hsb]
  | ok u => simp [hsel, hsb]

/-- C9, witness: with the single selected stream reporting size 0, the
transfer step is reached. -/
theorem c9_witness :
    Effect.transferBytes ∈ (download_video "https://youtu.be/dQw4w9WgXcQ"
      1 2 (.ok ⟨"T", 100, [⟨true, "mp4", 720, some 0⟩]⟩) (.ok ())).1 :=
  (c9_zero_filesize "https://youtu.be/dQw4w9WgXcQ" 1 2
    ⟨"T", 100, [⟨true, "mp4", 720, some 0⟩]⟩ (.ok ())
    ⟨true, "mp4", 720, some 0⟩ (by decide) (by decide) (by decide) rfl).2

/-! ### Claim C5 -/

/-- C5: for every non-negative duration `d` there is a decomposition
`d = 3600·h + 60·m + s` with `m, s < 60` such that the formatted string is
`h:mm:ss` when at least one hour and `m:ss` otherwise, with minutes and
seconds rendered by the two-digit zero-padding `fmt02`; `fmt02` really
yields two digits for every value below 60; and the three spec examples
hold. -/
theorem c5_duration_format :
    (∀ d : Nat, ∃ h m s, d = 3600 * h + 60 * m + s ∧ m < 60 ∧ s < 60 ∧
      duration_str d =
        (if 0 < h then toString h ++ ":" ++ fmt02 m ++ ":" ++ fmt02 s
         else toString m ++ ":" ++ fmt02 s)) ∧
    (∀ n, n < 60 → (fmt02 n).length = 2) ∧
    duration_str 45 = "0:45" ∧
    duration_str 59 = "0:59" ∧
    duration_str 3661 = "1:01:01" := by
  refine ⟨?_, ?_, by decide, by decide, by decide⟩
  · intro d
    refine ⟨d / 3600, (d % 3600) / 60, d % 60, by omega, by omega, by omega,
      rfl⟩
  · intro n hn
    interval_cases n <;> rfl

/-- C5, witness: `fmt02` applied at a concrete single-digit value. -/
theorem c5_witness : (fmt02 7).length = 2 :=
  c5_duration_format.2.1 7 (by decide)

/-! ### Claim C6 -/

/-- C6: `hasSub` decides substring containment; the user-visible error
text is chosen by inspecting the failure description in this order — an
`unavailable` indicator (case-insensitively) selects the
private/deleted/geo-restricted message, otherwise `403` selects the
access-denied message, otherwise a `timeout` indicator (case-insensitively)
selects the retry message, otherwise the generic retry guidance is shown —
and any exception injected at the metadata fetch makes the handler edit
the interim message with exactly that text. -/
theorem c6_error_classification :
    (∀ needle hay : List Char,
      hasSub needle hay = true ↔ ∃ pre post, hay = pre ++ needle ++ post) ∧
    (∀ e : String,
      (hasSub "unavailable".data (lowerStr e).data = true →
        error_text e = "❌ Sorry, I couldn't download this video.\n\n" ++
          "The video might be private, deleted, or geo-restricted.") ∧
      (hasSub "unavailable".data (lowerStr e).data = false →
        hasSub "403".data e.data = true →
        error_text e = "❌ Sorry, I couldn't download this video.\n\n" ++
          "Access denied. The video might be age-restricted or private.") ∧
      (hasSub "unavailable".data (lowerStr e).data = false →
        hasSub "403".data e.data = false →
        hasSub "timeout".data (lowerStr e).data = true →
        error_text e = "❌ Sorry, I couldn't download this video.\n\n" ++
          "Download timeout. Please try again.") ∧
      (hasSub "unavailable".data (lowerStr e).data = false →
        hasSub "403".data e.data = false →
        hasSub "timeout".data (lowerStr e).data = false →
        error_text e = "❌ Sorry, I couldn't download this video.\n\n" ++
          "Please try again later or with a different video.")) ∧
    (∀ (text : String) (mid pm : Nat) (e : String) dl,
      is_youtube_url (strip text) = true →
      download_video text mid pm (.error e) dl =
        ([.reply mid processingMsg, .edit pm (error_text e)],
          .errorCaught)) := by
  refine ⟨?_, ?_, ?_⟩
  · intro needle hay
    induction hay with
    | nil =>
      rw [hasSub, List.isPrefixOf_iff_prefix, List.prefix_nil]
      constructor
      · rintro rfl
        exact ⟨[], [], rfl⟩
      · rintro ⟨pre, post, hp⟩
        obtain ⟨h1, -⟩ := List.append_eq_nil.mp hp.symm
        exact (List.append_eq_nil.mp h1).2
    | cons c t ih =>
      rw [hasSub, Bool.or_eq_true, List.isPrefixOf_iff_prefix, ih]
      constructor
      · rintro (⟨post, hpost⟩ | ⟨pre, post, hp⟩)
        · exact ⟨[], post, by simp [← hpost]⟩
        · exact ⟨c :: pre, post, by simp [hp]⟩
      · rintro ⟨pre, post, hp⟩
        cases pre with
        | nil =>
          left
          exact ⟨post, by simpa using hp.symm⟩
        | cons p ps =>
          right
          rw [List.cons_append, List.cons_append, List.cons.injEq] at hp
          exact ⟨ps, post, hp.2⟩
  · intro e
    refine ⟨?_, ?_, ?_, ?_⟩
    · intro h1
      simp [error_text, h1]
    · intro h1 h2
      simp [error_text, h1, h2]
    · intro h1 h2 h3
      simp [error_text, h1, h2, h3]
    · intro h1 h2 h3
      simp [error_text, h1, h2, h3]
  · intro text mid pm e dl hv
    simp [download_video, hv]

/-- C6, witness: one concrete description per classification branch, and
the handler's single error edit for a concrete fetch failure. -/
theorem c6_witness :
    error_text "Video Unavailable" =
      "❌ Sorry, I couldn't download this video.\n\n" ++
        "The video might be private, deleted, or geo-restricted." ∧
    error_text "HTTP Error 403: Forbidden" =
      "❌ Sorry, I couldn't download this video.\n\n" ++
        "Access denied. The video might be age-restricted or private." ∧
    error_text "Read Timeout" =
      "❌ Sorry, I couldn't download this video.\n\n" ++
        "Download timeout. Please try again." ∧
    error_text "boom" =
      "❌ Sorry, I couldn't download this video.\n\n" ++
        "Please try again later or with a different video." ∧
    download_video "https://youtu.be/dQw4w9WgXcQ" 1 2 (.error "boom")
        (.ok ()) =
      ([.reply 1 processingMsg, .edit 2 (error_text "boom")],
        .errorCaught) := by
  refine ⟨?_, ?_, ?_, ?_, ?_⟩
  · exact (c6_error_classification.2.1 "Video Unavailable").1 (by decide)
  · exact (c6_error_classification.2.1 "HTTP Error 403: Forbidden").2.1
      (by decide) (by decide)
  · exact (c6_error_classification.2.1 "Read Timeout").2.2.1
      (by decide) (by decide) (by decide)
  · exact (c6_error_classification.2.1 "boom").2.2.2
      (by decide) (by decide) (by decide)
  · exact c6_error_classification.2.2 "https://youtu.be/dQw4w9WgXcQ" 1 2
      "boom" (.ok ()) (by decide)

/-! ### Trace lemmas for the temporal and safety claims -/

theorem startsFail_error_text (e : String) :
    startsFail (error_text e) = true := by
  simp only [error_text]
  split_ifs <;> decide

theorem startsFail_tooLong : startsFail tooLongMsg = true := by decide

theorem startsFail_noStreams : startsFail noStreamsMsg = true := by decide

theorem startsFail_infoText (title d st : String) :
    startsFail (infoText title d st) = false := by
  unfold startsFail infoText
  rw [show ("❌".data : List Char) = ['❌'] from rfl]
  simp only [String.data_append]
  simp [List.isPrefixOf]

/-! ### Claim C7 -/

/-- C7: on every run that fails after the interim processing message was
created (outcome neither success nor invalid-URL), the trace contains
exactly one failure-reporting edit, exactly one outgoing reply (the
interim message itself — no new status message is sent for the failure),
and no edit of any message other than the interim one. -/
theorem c7_failure_reporting (text : String) (mid pm : Nat)
    (fetch : Except String VideoInfo) (dl : Except String Unit)
    (hfail : (download_video text mid pm fetch dl).2 ≠ .success)
    (hnv : (download_video text mid pm fetch dl).2 ≠ .invalidUrl) :
    (download_video text mid pm fetch dl).1.countP
        (fun x => isFailEdit x) = 1 ∧
    (download_video text mid pm fetch dl).1.countP
        (fun x => isReply x) = 1 ∧
    (download_video text mid pm fetch dl).1.countP
        (fun x => isEdit x && !editsMsg pm x) = 0 := by
  cases hv : is_youtube_url (strip text) with
  | false =>
    exfalso
    apply hnv
    simp [download_video, hv]
  | true =>
    cases fetch with
    | error e =>
      simp [download_video, hv, List.countP_cons, isFailEdit, isReply,
        isEdit, editsMsg, startsFail_error_text e]
    | ok yt =>
      by_cases hdur : 21600 < yt.length
      · simp [download_video, hv, hdur, List.countP_cons, isFailEdit,
          isReply, isEdit, editsMsg, startsFail_tooLong]
      · cases hsel : select_stream yt.streams with
        | none =>
          simp [download_video, hv, hdur, hsel, List.countP_cons,
            isFailEdit, isReply, isEdit, editsMsg, startsFail_noStreams,
            startsFail_infoText]
        | some st =>
          cases hsb : size_blocked st.filesize with
          | true =>
            simp [download_video, hv, hdur, hsel, hsb, List.countP_cons,
              isFailEdit, isReply, isEdit, editsMsg, startsFail_infoText]
          | false =>
            cases dl with
            | error e =>
              simp [download_video, hv, hdur, hsel, hsb, List.countP_cons,
                isFailEdit, isReply, isEdit, editsMsg,
                startsFail_error_text e, startsFail_infoText]
            | ok u =>
              exfalso
              apply hfail
              simp [download_video, hv, hdur, hsel, hsb]

/-- C7, witness: a concrete no-streams failure — one failure edit, one
reply, no edit outside the interim message. -/
theorem c7_witness :
    (download_video "https://youtu.be/dQw4w9WgXcQ" 1 2
        (.ok ⟨"T", 100, []⟩) (.ok ())).1.countP
      (fun x => isFailEdit x) = 1 ∧
    (download_video "https://youtu.be/dQw4w9WgXcQ" 1 2
        (.ok ⟨"T", 100, []⟩) (.ok ())).1.countP
      (fun x => isReply x) = 1 ∧
    (download_video "https://youtu.be/dQw4w9WgXcQ" 1 2
        (.ok ⟨"T", 100, []⟩) (.ok ())).1.countP
      (fun x => isEdit x && !editsMsg 2 x) = 0 :=
  c7_failure_reporting "https://youtu.be/dQw4w9WgXcQ" 1 2
    (.ok ⟨"T", 100, []⟩) (.ok ()) (by decide) (by decide)

/-! ### Claim C8 -/

/-- C8: on every run, the number of buffer releases equals the number of
buffer allocations (so paths that never allocate release nothing, and
paths that allocate release exactly once), at most one allocation happens,
and once the buffer is allocated the very last effect of the run is its
release. -/
theorem c8_buffer_release (text : String) (mid pm : Nat)
    (fetch : Except String VideoInfo) (dl : Except String Unit) :
    closeCount (download_video text mid pm fetch dl).1 =
      allocCount (download_video text mid pm fetch dl).1 ∧
    allocCount (download_video text mid pm fetch dl).1 ≤ 1 ∧
    (Effect.allocBuffer ∈ (download_video text mid pm fetch dl).1 →
      (download_video text mid pm fetch dl).1.getLast? =
        some Effect.closeBuffer) := by
  cases hv : is_youtube_url (strip text) with
  | false =>
    simp [download_video, hv, allocCount, closeCount, isAlloc, isClose]
  | true =>
    cases fetch with
    | error e =>
      simp [download_video, hv, allocCount, closeCount, isAlloc, isClose]
    | ok yt =>
      by_cases hdur : 21600 < yt.length
      · simp [download_video, hv, hdur, allocCount, closeCount, isAlloc,
          isClose]
      · cases hsel : select_stream yt.streams with
        | none =>
          simp [download_video, hv, hdur, hsel, allocCount, closeCount,
            isAlloc, isClose, List.countP_cons,
            List.getLast?_cons_cons, List.getLast?_singleton]
        | some st =>
          cases hsb : size_blocked st.filesize with
          | true =>
            simp [download_video, hv, hdur, hsel, hsb, allocCount,
              closeCount, isAlloc, isClose, List.countP_cons,
              List.getLast?_cons_cons, List.getLast?_singleton]
          | false =>
            cases dl with
            | error e =>
              simp [download_video, hv, hdur, hsel, hsb, allocCount,
                closeCount, isAlloc, isClose, List.countP_cons,
                List.getLast?_cons_cons, List.getLast?_singleton]
            | ok u =>
              simp [download_video, hv, hdur, hsel, hsb, allocCount,
                closeCount, isAlloc, isClose, List.countP_cons,
                List.getLast?_cons_cons, List.getLast?_singleton]

/-- C8, witness: a concrete successful run allocates once, releases once,
and ends with the release. -/
theorem c8_witness :
    closeCount (download_video "https://youtu.be/dQw4w9WgXcQ" 1 2
        (.ok ⟨"T", 100, [⟨true, "mp4", 720, none⟩]⟩) (.ok ())).1 =
      allocCount (download_video "https://youtu.be/dQw4w9WgXcQ" 1 2
        (.ok ⟨"T", 100, [⟨true, "mp4", 720, none⟩]⟩) (.ok ())).1 ∧
    (download_video "https://youtu.be/dQw4w9WgXcQ" 1 2
        (.ok ⟨"T", 100, [⟨true, "mp4", 720, none⟩]⟩) (.ok ())).1.getLast? =
      some Effect.closeBuffer :=
  ⟨(c8_buffer_release "https://youtu.be/dQw4w9WgXcQ" 1 2
      (.ok ⟨"T", 100, [⟨true, "mp4", 720, none⟩]⟩) (.ok ())).1,
    (c8_buffer_release "https://youtu.be/dQw4w9WgXcQ" 1 2
      (.ok ⟨"T", 100, [⟨true, "mp4", 720, none⟩]⟩) (.ok ())).2.2
      (by decide)⟩

end YT
